import Mathlib

/-- Modelled from the spec: the `Product` model (`from .models import
Product`) is not part of the given sources; per the spec a product
record exposes an integer primary key `id`, a decimal `price` and an
`available` flag.  The price is held in its canonical textual decimal
form, so the source's `str(product.price)` is `price` itself. -/
structure Product where
  id : Nat
  price : String
  available : Bool
deriving DecidableEq

/-- One inner line dict of the stored cart mapping.  A wire-format line
has `quantity = some _`, `price = some _` and `product = none`. -/
structure Line where
  quantity : Option Int
  price : Option String
  product : Option Product
deriving DecidableEq

/-- The stored cart mapping: insertion-ordered association list from
string product id to line, as a Python dict holds it. -/
abbrev CartMap : Type := List (String × Line)

/-- Numeric value of a digit string. -/
def natOfDigits (ds : List Char) : Nat :=
  ds.foldl (fun n c => n * 10 + (c.toNat - 48)) 0

/-- Model of the `decimal.Decimal` string constructor on the forms the
cart stores: optional sign, digits, at most one point, at least one
digit overall.  `none` models a raised `InvalidOperation`. -/
def parseDecimal (s : String) : Option ℚ :=
  let cs := s.toList
  let signed : Bool × List Char :=
    match cs with
    | '-' :: r => (true, r)
    | '+' :: r => (false, r)
    | r => (false, r)
  let val : Option ℚ :=
    match signed.2.splitOn '.' with
    | [ip] =>
      if ip ≠ [] ∧ ip.all Char.isDigit then
        some ((natOfDigits ip : ℚ))
      else none
    | [ip, fp] =>
      if (ip ≠ [] ∨ fp ≠ []) ∧ ip.all Char.isDigit ∧ fp.all Char.isDigit then
        some ((natOfDigits ip : ℚ) + (natOfDigits fp : ℚ) / (10 ^ fp.length : ℚ))
      else none
    | _ => none
  val.map (fun q => if signed.1 then -q else q)

/-- Python dict lookup `cart[k]` / `k in cart` (first entry with the
key; keys are unique in any dict-reachable state). -/
def lookupLine : CartMap → String → Option Line
  | [], _ => none
  | e :: rest, k => if e.1 = k then some e.2 else lookupLine rest k

/-- In-place update of the entries holding key `k` (Python dict item
assignment when the key is present keeps its position). -/
def replaceLine : CartMap → String → Line → CartMap
  | [], _, _ => []
  | e :: rest, k, l =>
    if e.1 = k then (k, l) :: replaceLine rest k l else e :: replaceLine rest k l

/-- Python dict item assignment `cart[k] = l`: update in place when the
key is present, append a new entry otherwise. -/
def setLine (c : CartMap) (k : String) (l : Line) : CartMap :=
  if (lookupLine c k).isSome then replaceLine c k l else c ++ [(k, l)]

/-- Python `del cart[k]` (keys are unique, so removing every entry with
the key is removing the one entry). -/
def eraseLine : CartMap → String → CartMap
  | [], _ => []
  | e :: rest, k => if e.1 = k then eraseLine rest k else e :: eraseLine rest k

/-- Translation of `Cart.__len__`: `sum(item.get('quantity', 0) for
item in self.cart.values())`. -/
def cartLen (c : CartMap) : Int :=
  (c.map (fun e => e.2.quantity.getD 0)).sum

/-- Loop body of `Cart.get_total_price` for one stored line:
`Decimal(item['price'])` raising (missing or malformed price) is the
`none` branch, where the line is skipped (`pass`). -/
def gtpStep (total : ℚ) (e : String × Line) : ℚ :=
  match e.2.price.bind parseDecimal with
  | some price => total + price * ((e.2.quantity.getD 0 : Int) : ℚ)
  | none => total

/-- Translation of `Cart.get_total_price`: fold `gtpStep` over the
stored lines starting from `Decimal('0.00')`. -/
def get_total_price (c : CartMap) : ℚ :=
  c.foldl gtpStep 0

/-- Translation of `Cart.add` on the stored mapping.  Returns `none`
when the source would raise: `self.cart[product_id]['quantity'] +=
quantity` raises `KeyError` if the pre-existing line dict has no
`quantity` key (the raise happens before any mutation, and `save` is
then not reached). -/
def cartAdd (cart : CartMap) (product : Product) (quantity : Int)
    (override_quantity : Bool) : Option CartMap :=
  let product_id := toString product.id
  let cart1 : CartMap :=
    if (lookupLine cart product_id).isSome then cart
    else setLine cart product_id
      { quantity := some 0, price := some product.price, product := none }
  if override_quantity then
    match lookupLine cart1 product_id with
    | some l => some (setLine cart1 product_id { l with quantity := some quantity })
    | none => none
  else
    match lookupLine cart1 product_id with
    | some l =>
      match l.quantity with
      | some q0 => some (setLine cart1 product_id { l with quantity := some (q0 + quantity) })
      | none => none
    | none => none

/-- Translation of `Cart.remove` on the stored mapping: delete the line
if present, otherwise do nothing. -/
def cartRemove (cart : CartMap) (product : Product) : CartMap :=
  let product_id := toString product.id
  if (lookupLine cart product_id).isSome then eraseLine cart product_id else cart

/-- The batched catalog lookup of `Cart.__iter__`:
`Product.objects.filter(id__in=product_ids, available=True)`, with the
catalog modelled as the list of all product rows. -/
def productsOf (catalog : List Product) (cart : CartMap) : List Product :=
  catalog.filter (fun p => p.available && (cart.map Prod.fst).contains (toString p.id))

/-- One pass of the attachment loop body of `Cart.__iter__`:
`if pid_str in cart_copy: cart_copy[pid_str]['product'] = product`.
Because `self.cart.copy()` is a shallow copy, the inner line dicts are
shared with the stored mapping, so this write lands on the stored
line. -/
def stepAttach (c : CartMap) (p : Product) : CartMap :=
  let pid := toString p.id
  match lookupLine c pid with
  | some l => setLine c pid { l with product := some p }
  | none => c

/-- The enhanced item dictionaries yielded by `Cart.__iter__`. -/
structure Item where
  product : Option Product
  price : ℚ
  quantity : Int
  total_price : ℚ
deriving DecidableEq

/-- The yield body of `Cart.__iter__` for one line: parse the stored
price, defaulting to `Decimal('0.00')` when `Decimal(item['price'])`
raises, and compute the line total. -/
def enrichLine (l : Line) : Item :=
  let price : ℚ :=
    match l.price.bind parseDecimal with
    | some pr => pr
    | none => 0
  { product := l.product
    price := price
    quantity := l.quantity.getD 0
    total_price := price * ((l.quantity.getD 0 : Int) : ℚ) }

/-- Translation of `Cart.__iter__`, run to completion.  First component:
the yielded items, in stored order.  Second component: the stored
mapping afterwards — `self.cart.copy()` copies only the outer dict, the
inner line dicts are shared, so the `'product'` writes of the
attachment loop mutate the stored lines. -/
def cartIter (catalog : List Product) (cart : CartMap) : List Item × CartMap :=
  let products := productsOf catalog cart
  let cartAfter := products.foldl stepAttach cart
  (cartAfter.map (fun e => enrichLine e.2), cartAfter)

/-- The session as the cart code touches it: the value stored under the
`settings.CART_SESSION_ID` key (`none` when the key is absent) and the
`modified` flag. -/
structure Session where
  cartData : Option CartMap
  modified : Bool
deriving DecidableEq

/-- A `Cart` instance: the session handle and the `self.cart` mapping
(the same mapping object as the session slot whenever the slot is
populated). -/
structure Cart where
  session : Session
  cart : CartMap
deriving DecidableEq

/-- Translation of `Cart.__init__`: load the stored mapping, replacing
a falsy value (absent key or empty dict) with an empty one. -/
def Cart.init (s : Session) : Cart :=
  let stored := match s.cartData with
    | some m => m
    | none => []
  { session := s, cart := if stored = ([] : CartMap) then [] else stored }

/-- Translation of `Cart.save`: write `self.cart` back under the session
key and mark the session modified. -/
def Cart.save (c : Cart) : Cart :=
  { c with session := { cartData := some c.cart, modified := true } }

/-- Translation of `Cart.add` at instance level: update the mapping and
save; `none` when the quantity update raises (see `cartAdd`). -/
def Cart.add (c : Cart) (p : Product) (quantity : Int)
    (override_quantity : Bool) : Option Cart :=
  (cartAdd c.cart p quantity override_quantity).map
    (fun m => Cart.save { c with cart := m })

/-- Translation of `Cart.remove` at instance level: delete the line and
save when present, otherwise do nothing (no save, no error). -/
def Cart.remove (c : Cart) (p : Product) : Cart :=
  if (lookupLine c.cart (toString p.id)).isSome then
    Cart.save { c with cart := eraseLine c.cart (toString p.id) }
  else c

/-- Translation of `Cart.clear`: delete the session key and mark the
session modified when the key is present; otherwise do nothing.  Note
that `self.cart` is not touched. -/
def Cart.clear (c : Cart) : Cart :=
  if c.session.cartData.isSome then
    { c with session := { cartData := none, modified := true } }
  else c

/-- Translation of `Cart.__len__` at instance level. -/
def Cart.length (c : Cart) : Int := cartLen c.cart

def keysNodup (c : CartMap) : Prop := (c.map Prod.fst).Nodup

instance (c : CartMap) : Decidable (keysNodup c) := by
  unfold keysNodup
  infer_instance

def qtyPresent (c : CartMap) : Prop := ∀ e ∈ c, e.2.quantity.isSome

instance (c : CartMap) : Decidable (qtyPresent c) := by
  unfold qtyPresent
  infer_instance

def prodNone (c : CartMap) : Prop := ∀ e ∈ c, e.2.product = none

instance (c : CartMap) : Decidable (prodNone c) := by
  unfold prodNone
  infer_instance

/-- Contribution of one stored line to the total (zero when the stored
price does not parse). -/
def lineContrib (e : String × Line) : ℚ :=
  match e.2.price.bind parseDecimal with
  | some price => price * ((e.2.quantity.getD 0 : Int) : ℚ)
  | none => 0

/-- Effect of one loop pass on one stored entry. -/
def attachStep (e : String × Line) (p : Product) : String × Line :=
  if toString p.id = e.1 then (e.1, { e.2 with product := some p }) else e

/-- Effect of the whole attachment loop on one stored entry. -/
def attachEntry (ps : List Product) (e : String × Line) : String × Line :=
  ps.foldl attachStep e

/-- The last product of the batch whose id string equals the key: the
one whose attachment write survives the loop. -/
def lastMatch : List Product → String → Option Product
  | [], _ => none
  | p :: ps, k =>
    match lastMatch ps k with
    | some p' => some p'
    | none => if toString p.id = k then some p else none

/-- A whole sequence of accumulate-mode `add` calls, as the spec's
property quantifies over. -/
def foldAdds : CartMap → List (Product × Int) → Option CartMap
  | cart, [] => some cart
  | cart, a :: rest =>
    match cartAdd cart a.1 a.2 false with
    | some cart' => foldAdds cart' rest
    | none => none

/-- Wire-format shape of one stored line: exactly an integer `quantity`
and a string `price`, and no other key (`product` absent). -/
def wireShape (l : Line) : Bool :=
  l.quantity.isSome && l.price.isSome && l.product.isNone

/-- Wire-format shape of the whole stored mapping. -/
def wireShapeCart (c : CartMap) : Bool :=
  c.all (fun e => wireShape e.2)

/-- One execution environment: the product catalog visible to the run
and the stored cart mapping the run starts from. -/
structure RunEnv where
  catalog : List Product
  cart : CartMap

/-- `Cart.__len__` as observed in an environment: the translation shows
it reads only the stored mapping, never the catalog. -/
def runLen (w : RunEnv) : Int := cartLen w.cart

/-- `Cart.get_total_price` as observed in an environment: the
translation shows it reads only the stored mapping, never the
catalog. -/
def runTotal (w : RunEnv) : ℚ := get_total_price w.cart

/-- Concrete product: id 1, price 19.99, available. -/
def prodBook : Product := { id := 1, price := "19.99", available := true }

/-- The same catalog row after a price change. -/
def prodBookRepriced : Product := { id := 1, price := "29.99", available := true }

/-- Stored line for `prodBook`: quantity 2 at snapshot price 19.99. -/
def lineBook : Line := { quantity := some 2, price := some "19.99", product := none }

/-- Stored cart holding the single `prodBook` line. -/
def cartOneBook : CartMap := [("1", lineBook)]

/-- Stored line with a corrupted price string. -/
def lineBad : Line := { quantity := some 4, price := some "not-a-number", product := none }

/-- Concrete products for the add-sequence witness. -/
def prodPen : Product := { id := 7, price := "5.00", available := true }

def prodMug : Product := { id := 8, price := "3.50", available := false }

/-- A session whose cart slot holds `cartOneBook`, and the `Cart`
instance loaded from it. -/

def sessionWithBook : Session := { cartData := some cartOneBook, modified := false }

def cartObjBook : Cart := { session := sessionWithBook, cart := cartOneBook }

/-- Environments with identical stored carts but different catalogs
(price changed and row deleted, respectively). -/
def envBook : RunEnv := { catalog := [prodBook], cart := cartOneBook }

def envNoCatalog : RunEnv := { catalog := [], cart := cartOneBook }

/-! ### Lemmas and verified properties -/

theorem lookupLine_eq_none {c : CartMap} {k : String} :
    lookupLine c k = none ↔ k ∉ c.map Prod.fst := by
  induction c with
  | nil => simp [lookupLine]
  | cons e rest ih =>
    by_cases h : e.1 = k
    · simp [lookupLine, h]
    · simp [lookupLine, h, ih, Ne.symm h]

theorem lookupLine_mem {c : CartMap} {k : String} {l : Line}
    (h : lookupLine c k = some l) : (k, l) ∈ c := by
  induction c with
  | nil => simp [lookupLine] at h
  | cons e rest ih =>
    by_cases he : e.1 = k
    · simp only [lookupLine, if_pos he] at h
      cases h
      subst he
      simp
    · simp only [lookupLine, if_neg he] at h
      exact List.mem_cons_of_mem _ (ih h)

theorem mem_lookupLine {c : CartMap} {k : String} {l : Line}
    (hnd : keysNodup c) (h : (k, l) ∈ c) : lookupLine c k = some l := by
  induction c with
  | nil => simp at h
  | cons e rest ih =>
    rw [keysNodup, List.map_cons, List.nodup_cons] at hnd
    rcases List.mem_cons.mp h with h1 | h1
    · rw [← h1]
      simp [lookupLine]
    · have hne : e.1 ≠ k := by
        intro hk
        exact hnd.1 (hk ▸ (List.mem_map.mpr ⟨(k, l), h1, rfl⟩))
      simp only [lookupLine, if_neg hne]
      exact ih hnd.2 h1

theorem replaceLine_absent {c : CartMap} {k : String} (l : Line)
    (h : lookupLine c k = none) : replaceLine c k l = c := by
  induction c with
  | nil => rfl
  | cons e rest ih =>
    by_cases he : e.1 = k
    · simp [lookupLine, he] at h
    · simp only [lookupLine, if_neg he] at h
      simp [replaceLine, he, ih h]

theorem replaceLine_map_fst (c : CartMap) (k : String) (l : Line) :
    (replaceLine c k l).map Prod.fst = c.map Prod.fst := by
  induction c with
  | nil => rfl
  | cons e rest ih =>
    by_cases he : e.1 = k
    · simp [replaceLine, he, ih]
    · simp [replaceLine, he, ih]

theorem lookup_replaceLine_self {c : CartMap} {k : String} {l0 : Line} (l : Line)
    (h : lookupLine c k = some l0) : lookupLine (replaceLine c k l) k = some l := by
  induction c with
  | nil => simp [lookupLine] at h
  | cons e rest ih =>
    by_cases he : e.1 = k
    · simp [replaceLine, he, lookupLine]
    · simp only [lookupLine, if_neg he] at h
      simp [replaceLine, he, lookupLine, ih h]

theorem lookup_replaceLine_ne {c : CartMap} {k k' : String} (l : Line)
    (h : k' ≠ k) : lookupLine (replaceLine c k l) k' = lookupLine c k' := by
  induction c with
  | nil => rfl
  | cons e rest ih =>
    by_cases he : e.1 = k
    · have hk : ¬ (k = k') := fun hh => h hh.symm
      have he' : ¬ (e.1 = k') := by
        rw [he]
        exact hk
      simp only [replaceLine, if_pos he, lookupLine, if_neg hk, if_neg he', ih]
    · by_cases he' : e.1 = k'
      · simp only [replaceLine, if_neg he, lookupLine, if_pos he']
      · simp only [replaceLine, if_neg he, lookupLine, if_neg he', ih]

theorem mem_replaceLine {c : CartMap} {k : String} {l : Line} {e : String × Line}
    (h : e ∈ replaceLine c k l) : e ∈ c ∨ e = (k, l) := by
  induction c with
  | nil => simp [replaceLine] at h
  | cons e0 rest ih =>
    by_cases he : e0.1 = k
    · simp only [replaceLine, if_pos he] at h
      rcases List.mem_cons.mp h with h1 | h1
      · right; exact h1
      · rcases ih h1 with h2 | h2
        · left; exact List.mem_cons_of_mem _ h2
        · right; exact h2
    · simp only [replaceLine, if_neg he] at h
      rcases List.mem_cons.mp h with h1 | h1
      · left; exact h1 ▸ List.mem_cons_self _ _
      · rcases ih h1 with h2 | h2
        · left; exact List.mem_cons_of_mem _ h2
        · right; exact h2

theorem setLine_absent {c : CartMap} {k : String} (l : Line)
    (h : lookupLine c k = none) : setLine c k l = c ++ [(k, l)] := by
  simp [setLine, h]

theorem setLine_present {c : CartMap} {k : String} (l : Line)
    (h : (lookupLine c k).isSome) : setLine c k l = replaceLine c k l := by
  simp only [setLine, if_pos h]

theorem lookup_append_single_self {c : CartMap} {k : String} (l : Line)
    (h : lookupLine c k = none) : lookupLine (c ++ [(k, l)]) k = some l := by
  induction c with
  | nil => simp [lookupLine]
  | cons e rest ih =>
    by_cases he : e.1 = k
    · simp [lookupLine, he] at h
    · simp only [lookupLine, if_neg he] at h
      simp only [List.cons_append, lookupLine, if_neg he]
      exact ih h

theorem lookup_append_single_ne {c : CartMap} {k k' : String} (l : Line)
    (h : k' ≠ k) : lookupLine (c ++ [(k, l)]) k' = lookupLine c k' := by
  induction c with
  | nil =>
    have hk : ¬ (k = k') := fun hh => h hh.symm
    simp [lookupLine, hk]
  | cons e rest ih =>
    by_cases he : e.1 = k'
    · simp [lookupLine, he]
    · simp only [List.cons_append, lookupLine, if_neg he]
      exact ih

theorem lookup_setLine_self (c : CartMap) (k : String) (l : Line) :
    lookupLine (setLine c k l) k = some l := by
  rcases h : lookupLine c k with _ | l0
  · rw [setLine_absent l h]
    exact lookup_append_single_self l h
  · rw [setLine_present l (by simp [h])]
    exact lookup_replaceLine_self l h

theorem lookup_setLine_ne {c : CartMap} {k k' : String} (l : Line)
    (h : k' ≠ k) : lookupLine (setLine c k l) k' = lookupLine c k' := by
  rcases h0 : lookupLine c k with _ | l0
  · rw [setLine_absent l h0]
    exact lookup_append_single_ne l h
  · rw [setLine_present l (by simp [h0])]
    exact lookup_replaceLine_ne l h

theorem setLine_map_fst_present {c : CartMap} {k : String} (l : Line)
    (h : (lookupLine c k).isSome) :
    (setLine c k l).map Prod.fst = c.map Prod.fst := by
  rw [setLine_present l h, replaceLine_map_fst]

theorem lookup_eraseLine_self (c : CartMap) (k : String) :
    lookupLine (eraseLine c k) k = none := by
  induction c with
  | nil => rfl
  | cons e rest ih =>
    by_cases he : e.1 = k
    · simp [eraseLine, he, ih]
    · simp [eraseLine, he, lookupLine, ih]

theorem eraseLine_sublist (c : CartMap) (k : String) : (eraseLine c k).Sublist c := by
  induction c with
  | nil => simp [eraseLine]
  | cons e rest ih =>
    by_cases he : e.1 = k
    · simp only [eraseLine, if_pos he]
      exact ih.cons e
    · simp only [eraseLine, if_neg he]
      exact ih.cons₂ e

theorem eraseLine_keysNodup {c : CartMap} (k : String) (hnd : keysNodup c) :
    keysNodup (eraseLine c k) := by
  exact List.Nodup.sublist (List.Sublist.map Prod.fst (eraseLine_sublist c k)) hnd

theorem mem_eraseLine {c : CartMap} {k : String} {e : String × Line}
    (h : e ∈ eraseLine c k) : e ∈ c :=
  List.Sublist.mem h (eraseLine_sublist c k)

theorem cartLen_cons (e : String × Line) (c : CartMap) :
    cartLen (e :: c) = e.2.quantity.getD 0 + cartLen c := by
  simp [cartLen]

theorem cartLen_append (c1 c2 : CartMap) :
    cartLen (c1 ++ c2) = cartLen c1 + cartLen c2 := by
  simp [cartLen]

theorem cartLen_replaceLine {c : CartMap} {k : String} {l0 : Line} (l : Line)
    (hnd : keysNodup c) (h : lookupLine c k = some l0) :
    cartLen (replaceLine c k l) = cartLen c - l0.quantity.getD 0 + l.quantity.getD 0 := by
  induction c with
  | nil => simp [lookupLine] at h
  | cons e rest ih =>
    rw [keysNodup, List.map_cons, List.nodup_cons] at hnd
    by_cases he : e.1 = k
    · simp only [lookupLine, if_pos he] at h
      cases h
      have hrest : lookupLine rest k = none := by
        rw [lookupLine_eq_none]
        intro hk
        exact hnd.1 (he ▸ hk)
      simp only [replaceLine, if_pos he, replaceLine_absent l hrest,
        cartLen_cons]
      omega
    · simp only [lookupLine, if_neg he] at h
      simp only [replaceLine, if_neg he, cartLen_cons, ih hnd.2 h]
      omega

theorem gtpStep_eq (a : ℚ) (e : String × Line) : gtpStep a e = a + lineContrib e := by
  unfold gtpStep lineContrib
  rcases h : e.2.price.bind parseDecimal with _ | pr
  · simp
  · simp

theorem foldl_gtpStep (c : CartMap) :
    ∀ a : ℚ, c.foldl gtpStep a = a + (c.map lineContrib).sum := by
  induction c with
  | nil => simp
  | cons e rest ih =>
    intro a
    simp only [List.foldl_cons, List.map_cons, List.sum_cons, ih, gtpStep_eq]
    ring

theorem get_total_price_eq (c : CartMap) :
    get_total_price c = (c.map lineContrib).sum := by
  simp [get_total_price, foldl_gtpStep]

theorem attachStep_fst (e : String × Line) (p : Product) :
    (attachStep e p).1 = e.1 := by
  unfold attachStep
  by_cases h : toString p.id = e.1 <;> simp [h]

theorem attachStep_quantity (e : String × Line) (p : Product) :
    (attachStep e p).2.quantity = e.2.quantity := by
  unfold attachStep
  by_cases h : toString p.id = e.1 <;> simp [h]

theorem attachStep_price (e : String × Line) (p : Product) :
    (attachStep e p).2.price = e.2.price := by
  unfold attachStep
  by_cases h : toString p.id = e.1 <;> simp [h]

theorem attachEntry_fst (ps : List Product) (e : String × Line) :
    (attachEntry ps e).1 = e.1 := by
  induction ps generalizing e with
  | nil => rfl
  | cons p ps ih =>
    show (attachEntry ps (attachStep e p)).1 = e.1
    rw [ih, attachStep_fst]

theorem attachEntry_quantity (ps : List Product) (e : String × Line) :
    (attachEntry ps e).2.quantity = e.2.quantity := by
  induction ps generalizing e with
  | nil => rfl
  | cons p ps ih =>
    show (attachEntry ps (attachStep e p)).2.quantity = e.2.quantity
    rw [ih, attachStep_quantity]

theorem attachEntry_price (ps : List Product) (e : String × Line) :
    (attachEntry ps e).2.price = e.2.price := by
  induction ps generalizing e with
  | nil => rfl
  | cons p ps ih =>
    show (attachEntry ps (attachStep e p)).2.price = e.2.price
    rw [ih, attachStep_price]

theorem lastMatch_cons (p : Product) (ps : List Product) (k : String) :
    lastMatch (p :: ps) k =
      match lastMatch ps k with
      | some p' => some p'
      | none => if toString p.id = k then some p else none := rfl

theorem attachEntry_product (ps : List Product) (e : String × Line) :
    (attachEntry ps e).2.product =
      match lastMatch ps e.1 with
      | some p => some p
      | none => e.2.product := by
  induction ps generalizing e with
  | nil => rfl
  | cons p ps ih =>
    show (attachEntry ps (attachStep e p)).2.product = _
    rw [ih, attachStep_fst, lastMatch_cons]
    rcases hlm : lastMatch ps e.1 with _ | p' <;> simp only [hlm]
    by_cases hc : toString p.id = e.1
    · simp [attachStep, hc]
    · simp [attachStep, hc]

theorem lastMatch_spec {ps : List Product} {k : String} {p : Product}
    (h : lastMatch ps k = some p) : p ∈ ps ∧ toString p.id = k := by
  induction ps with
  | nil => simp [lastMatch] at h
  | cons q ps ih =>
    unfold lastMatch at h
    rcases hlm : lastMatch ps k with _ | p'
    · rw [hlm] at h
      by_cases hc : toString q.id = k
      · rw [if_pos hc] at h
        cases h
        exact ⟨List.mem_cons_self _ _, hc⟩
      · rw [if_neg hc] at h
        cases h
    · rw [hlm] at h
      cases h
      obtain ⟨h1, h2⟩ := ih hlm
      exact ⟨List.mem_cons_of_mem _ h1, h2⟩

theorem lastMatch_none {ps : List Product} {k : String}
    (h : k ∉ ps.map (fun p => toString p.id)) : lastMatch ps k = none := by
  induction ps with
  | nil => rfl
  | cons q ps ih =>
    simp only [List.map_cons, List.mem_cons, not_or] at h
    unfold lastMatch
    rw [ih h.2, if_neg (fun hc => h.1 hc.symm)]

theorem lastMatch_unique {ps : List Product} {k : String} {p : Product}
    (hnd : (ps.map (fun p => toString p.id)).Nodup)
    (hp : p ∈ ps) (hk : toString p.id = k) : lastMatch ps k = some p := by
  induction ps with
  | nil => simp at hp
  | cons q ps ih =>
    rw [List.map_cons, List.nodup_cons] at hnd
    rcases List.mem_cons.mp hp with h1 | h1
    · subst h1
      have : lastMatch ps k = none := lastMatch_none (hk ▸ hnd.1)
      unfold lastMatch
      rw [this, if_pos hk]
    · unfold lastMatch
      rw [ih hnd.2 h1]

theorem map_attachStep_id {c : CartMap} {p : Product}
    (h : ∀ e ∈ c, ¬(toString p.id = e.1)) :
    c.map (fun e => attachStep e p) = c := by
  induction c with
  | nil => rfl
  | cons e rest ih =>
    have h1 : attachStep e p = e := by
      unfold attachStep
      rw [if_neg (h e (List.mem_cons_self _ _))]
    simp only [List.map_cons, h1, ih (fun e' he' => h e' (List.mem_cons_of_mem _ he'))]

theorem stepAttach_eq {c : CartMap} (p : Product) (hnd : keysNodup c) :
    stepAttach c p = c.map (fun e => attachStep e p) := by
  induction c with
  | nil => rfl
  | cons e rest ih =>
    rw [keysNodup, List.map_cons, List.nodup_cons] at hnd
    by_cases he : e.1 = toString p.id
    · have hlk : lookupLine (e :: rest) (toString p.id) = some e.2 := by
        simp [lookupLine, he]
      have hrest : lookupLine rest (toString p.id) = none := by
        rw [lookupLine_eq_none]
        intro hk
        exact hnd.1 (he ▸ hk)
      have hpres : (lookupLine (e :: rest) (toString p.id)).isSome := by simp [hlk]
      simp only [stepAttach, hlk]
      rw [setLine_present _ hpres]
      have h1 : replaceLine (e :: rest) (toString p.id) { e.2 with product := some p }
          = (toString p.id, { e.2 with product := some p }) :: rest := by
        simp only [replaceLine, if_pos he, replaceLine_absent _ hrest]
      have h2 : attachStep e p = (e.1, { e.2 with product := some p }) := by
        unfold attachStep
        rw [if_pos he.symm]
      have h3 : rest.map (fun e => attachStep e p) = rest := by
        refine map_attachStep_id fun e' he' hk => hnd.1 ?_
        have hm : e'.1 ∈ rest.map Prod.fst := List.mem_map_of_mem Prod.fst he'
        rw [he, hk]
        exact hm
      rw [h1, List.map_cons, h2, h3, he]
    · have hlk : lookupLine (e :: rest) (toString p.id)
          = lookupLine rest (toString p.id) := by
        simp [lookupLine, he]
      have hstep : attachStep e p = e := by
        unfold attachStep
        rw [if_neg (fun hk => he hk.symm)]
      rcases hr : lookupLine rest (toString p.id) with _ | l
      · have h3 : rest.map (fun e => attachStep e p) = rest := by
          refine map_attachStep_id fun e' he' hk => ?_
          have hm : e'.1 ∈ rest.map Prod.fst := List.mem_map_of_mem Prod.fst he'
          rw [← hk] at hm
          exact (lookupLine_eq_none.mp hr) hm
        simp only [stepAttach, hlk, hr, List.map_cons, hstep, h3]
      · have hpres2 : (lookupLine (e :: rest) (toString p.id)).isSome := by
          simp [hlk, hr]
        have hpres3 : (lookupLine rest (toString p.id)).isSome := by simp [hr]
        simp only [stepAttach, hlk, hr]
        rw [setLine_present _ hpres2]
        have h1 : replaceLine (e :: rest) (toString p.id) { l with product := some p }
            = e :: replaceLine rest (toString p.id) { l with product := some p } := by
          simp only [replaceLine, if_neg he]
        have h2 : replaceLine rest (toString p.id) { l with product := some p }
            = stepAttach rest p := by
          simp only [stepAttach, hr]
          rw [setLine_present _ hpres3]
        rw [h1, h2, ih hnd.2, List.map_cons, hstep]

theorem stepAttach_map_fst {c : CartMap} (p : Product) (hnd : keysNodup c) :
    (stepAttach c p).map Prod.fst = c.map Prod.fst := by
  rw [stepAttach_eq p hnd, List.map_map]
  have h : (Prod.fst ∘ fun e => attachStep e p) = (Prod.fst : String × Line → String) :=
    funext (fun e => attachStep_fst e p)
  rw [h]

theorem foldl_stepAttach_eq (ps : List Product) {c : CartMap} (hnd : keysNodup c) :
    ps.foldl stepAttach c = c.map (attachEntry ps) := by
  induction ps generalizing c with
  | nil =>
    show c = c.map (attachEntry [])
    clear hnd
    induction c with
    | nil => rfl
    | cons e rest ih2 =>
      simp only [List.map_cons]
      rw [← ih2]
      rfl
  | cons p ps ih =>
    have hnd' : keysNodup (stepAttach c p) := by
      rw [keysNodup, stepAttach_map_fst p hnd]
      exact hnd
    show ps.foldl stepAttach (stepAttach c p) = _
    rw [ih hnd', stepAttach_eq p hnd, List.map_map]
    have h : (attachEntry ps ∘ fun e => attachStep e p) = attachEntry (p :: ps) :=
      funext (fun e => rfl)
    rw [h]

theorem cartIter_snd {catalog : List Product} {cart : CartMap} (hnd : keysNodup cart) :
    (cartIter catalog cart).2 = cart.map (attachEntry (productsOf catalog cart)) := by
  simp only [cartIter]
  exact foldl_stepAttach_eq _ hnd

theorem cartIter_fst {catalog : List Product} {cart : CartMap} (hnd : keysNodup cart) :
    (cartIter catalog cart).1
      = cart.map (fun e => enrichLine (attachEntry (productsOf catalog cart) e).2) := by
  simp only [cartIter]
  rw [foldl_stepAttach_eq _ hnd, List.map_map]
  rfl

theorem replaceLine_append_single {c : CartMap} {k : String} (l0 l : Line)
    (h : lookupLine c k = none) :
    replaceLine (c ++ [(k, l0)]) k l = c ++ [(k, l)] := by
  induction c with
  | nil => simp [replaceLine]
  | cons e rest ih =>
    by_cases he : e.1 = k
    · simp [lookupLine, he] at h
    · simp only [lookupLine, if_neg he] at h
      simp only [List.cons_append, List.append_eq, replaceLine, if_neg he, ih h]

theorem cartAdd_eq_absent {cart : CartMap} {p : Product} (q : Int) (ov : Bool)
    (h : lookupLine cart (toString p.id) = none) :
    cartAdd cart p q ov = some (cart ++ [(toString p.id,
      { quantity := some (if ov then q else 0 + q),
        price := some p.price, product := none })]) := by
  have hns : ¬ ((lookupLine cart (toString p.id)).isSome = true) := by simp [h]
  have hset : setLine cart (toString p.id)
      { quantity := some 0, price := some p.price, product := none }
      = cart ++ [(toString p.id,
          { quantity := some 0, price := some p.price, product := none })] :=
    setLine_absent _ h
  have hlk : lookupLine (cart ++ [(toString p.id,
      { quantity := some 0, price := some p.price, product := none })]) (toString p.id)
      = some { quantity := some 0, price := some p.price, product := none } :=
    lookup_append_single_self _ h
  have hpres : (lookupLine (cart ++ [(toString p.id,
      { quantity := some 0, price := some p.price, product := none })])
        (toString p.id)).isSome = true := by simp [hlk]
  cases ov
  · simp only [cartAdd, if_neg hns, hset, hlk, Bool.false_eq_true, if_false,
      setLine, hpres, if_true, replaceLine_append_single _ _ h]
    simp [replaceLine_append_single _ _ h]
  · simp only [cartAdd, if_neg hns, hset, hlk, if_true,
      setLine, hpres, replaceLine_append_single _ _ h]
    simp [replaceLine_append_single _ _ h]

theorem cartAdd_eq_absent_true {cart : CartMap} {p : Product} (q : Int)
    (h : lookupLine cart (toString p.id) = none) :
    cartAdd cart p q true = some (cart ++ [(toString p.id,
      { quantity := some q, price := some p.price, product := none })]) := by
  rw [cartAdd_eq_absent q true h]
  simp

theorem cartAdd_eq_present_true {cart : CartMap} {p : Product} {l : Line} (q : Int)
    (h : lookupLine cart (toString p.id) = some l) :
    cartAdd cart p q true
      = some (replaceLine cart (toString p.id) { l with quantity := some q }) := by
  have hpres : (lookupLine cart (toString p.id)).isSome = true := by simp [h]
  simp only [cartAdd, if_pos hpres, if_true, h, setLine]
  simp [h]

theorem cartAdd_eq_present_false {cart : CartMap} {p : Product} {l : Line} {q0 : Int}
    (q : Int) (h : lookupLine cart (toString p.id) = some l)
    (hq : l.quantity = some q0) :
    cartAdd cart p q false
      = some (replaceLine cart (toString p.id) { l with quantity := some (q0 + q) }) := by
  have hpres : (lookupLine cart (toString p.id)).isSome = true := by simp [h]
  simp only [cartAdd, if_pos hpres, Bool.false_eq_true, if_false, h, hq, setLine]
  simp [h, hq]

theorem cartAdd_eq_present_false_noqty {cart : CartMap} {p : Product} {l : Line}
    (q : Int) (h : lookupLine cart (toString p.id) = some l)
    (hq : l.quantity = none) :
    cartAdd cart p q false = none := by
  have hpres : (lookupLine cart (toString p.id)).isSome = true := by simp [h]
  simp only [cartAdd, if_pos hpres, Bool.false_eq_true, if_false, h, hq]
  simp [h, hq]

theorem cartAdd_false_ok {cart : CartMap} (p : Product) (q : Int)
    (hq : qtyPresent cart) (hnd : keysNodup cart) :
    ∃ cart', cartAdd cart p q false = some cart'
      ∧ qtyPresent cart' ∧ keysNodup cart'
      ∧ cartLen cart' = cartLen cart + q := by
  rcases h : lookupLine cart (toString p.id) with _ | l
  · refine ⟨_, cartAdd_eq_absent q false h, ?_, ?_, ?_⟩
    · intro e he
      rcases List.mem_append.mp he with h1 | h1
      · exact hq e h1
      · simp at h1
        rw [h1]
        rfl
    · rw [keysNodup, List.map_append]
      rw [List.nodup_append]
      refine ⟨hnd, by simp, ?_⟩
      intro a ha hb
      simp at hb
      rw [hb] at ha
      exact (lookupLine_eq_none.mp h) ha
    · rw [cartLen_append, cartLen_cons]
      simp [cartLen]
  · have hsome : l.quantity.isSome := hq _ (lookupLine_mem h)
    rcases hq0 : l.quantity with _ | q0
    · rw [hq0] at hsome
      simp at hsome
    · refine ⟨_, cartAdd_eq_present_false q h hq0, ?_, ?_, ?_⟩
      · intro e he
        rcases mem_replaceLine he with h1 | h1
        · exact hq e h1
        · rw [h1]
          simp
      · rw [keysNodup, replaceLine_map_fst]
        exact hnd
      · rw [cartLen_replaceLine _ hnd h]
        simp [hq0]
        omega

theorem foldAdds_ok (adds : List (Product × Int)) :
    ∀ cart : CartMap, qtyPresent cart → keysNodup cart →
    ∃ cart', foldAdds cart adds = some cart'
      ∧ qtyPresent cart' ∧ keysNodup cart'
      ∧ cartLen cart' = cartLen cart + (adds.map (fun a => a.2)).sum := by
  induction adds with
  | nil =>
    intro cart hq hnd
    exact ⟨cart, rfl, hq, hnd, by simp⟩
  | cons a rest ih =>
    intro cart hq hnd
    obtain ⟨c1, hadd, hq1, hnd1, hlen1⟩ := cartAdd_false_ok a.1 a.2 hq hnd
    obtain ⟨c2, hfold, hq2, hnd2, hlen2⟩ := ih c1 hq1 hnd1
    refine ⟨c2, ?_, hq2, hnd2, ?_⟩
    · simp only [foldAdds, hadd, hfold]
    · rw [hlen2, hlen1]
      simp only [List.map_cons, List.sum_cons]
      omega

theorem cartRemove_present {cart : CartMap} {p : Product}
    (h : (lookupLine cart (toString p.id)).isSome) :
    cartRemove cart p = eraseLine cart (toString p.id) := by
  simp only [cartRemove, if_pos h]

theorem cartRemove_absent {cart : CartMap} {p : Product}
    (h : lookupLine cart (toString p.id) = none) :
    cartRemove cart p = cart := by
  simp only [cartRemove, h]
  simp

/-- C1: the spec says iteration never mutates persisted state, and the
code's own comment claims the copy prevents it; but `dict.copy()` is
shallow, so the attachment loop writes the `product` object into the
stored line.  Evaluating `__iter__` on a one-line cart whose product is
available shows the stored mapping changes. -/
theorem iter_mutates_stored_state :
    (cartIter [prodBook] cartOneBook).2 ≠ cartOneBook
    ∧ (cartIter [prodBook] cartOneBook).2
        = [("1", { lineBook with product := some prodBook })] := by
  decide

/-- C9: the wire-format invariant (each stored line exactly
`{quantity: int, price: str}`) holds before iteration but is broken by
`__iter__`, which adds a `product` key to the stored line of an
available product. -/
theorem iter_breaks_wire_format :
    wireShapeCart cartOneBook = true
    ∧ wireShapeCart (cartIter [prodBook] cartOneBook).2 = false := by
  decide

/-- C8: `__len__` and `get_total_price` are functions of the stored
mapping alone; two runs over the same stored cart but arbitrarily
different catalogs observe the same length and the same total. -/
theorem observables_independent_of_catalog (w1 w2 : RunEnv)
    (h : w1.cart = w2.cart) :
    runLen w1 = runLen w2 ∧ runTotal w1 = runTotal w2 := by
  rw [runLen, runLen, runTotal, runTotal, h]
  exact ⟨rfl, rfl⟩

theorem observables_independent_of_catalog_witness :
    runLen envBook = runLen envNoCatalog ∧ runTotal envBook = runTotal envNoCatalog :=
  observables_independent_of_catalog envBook envNoCatalog rfl

/-- C4: once a product has a line in the cart, any further `add` for a
product record with the same id (even a repriced one) leaves the stored
price snapshot unchanged: the price is written only when the line is
first created. -/
theorem add_preserves_price_snapshot (cart : CartMap) (p : Product) (q : Int)
    (ov : Bool) (l : Line) (h : lookupLine cart (toString p.id) = some l)
    {cart' : CartMap} (h2 : cartAdd cart p q ov = some cart') :
    ∃ l', lookupLine cart' (toString p.id) = some l' ∧ l'.price = l.price := by
  cases ov
  · rcases hq0 : l.quantity with _ | q0
    · rw [cartAdd_eq_present_false_noqty q h hq0] at h2
      cases h2
    · rw [cartAdd_eq_present_false q h hq0] at h2
      cases h2
      exact ⟨_, lookup_replaceLine_self _ h, rfl⟩
  · rw [cartAdd_eq_present_true q h] at h2
    cases h2
    exact ⟨_, lookup_replaceLine_self _ h, rfl⟩

theorem add_preserves_price_snapshot_witness :
    ∃ l', lookupLine
        [("1", { quantity := some 5, price := some "19.99", product := none })]
        (toString prodBookRepriced.id) = some l'
      ∧ l'.price = lineBook.price :=
  add_preserves_price_snapshot cartOneBook prodBookRepriced 3 false lineBook
    (by decide) (by decide)

/-- C2: starting from an empty cart, any sequence of accumulate-mode
`add` calls with positive quantities succeeds and leaves `__len__`
equal to the sum of all quantities passed. -/
theorem length_after_add_sequence (adds : List (Product × Int))
    (hpos : ∀ a ∈ adds, 0 < a.2) :
    ∃ cart, foldAdds [] adds = some cart
      ∧ cartLen cart = (adds.map (fun a => a.2)).sum := by
  obtain ⟨c, h1, _, _, h4⟩ :=
    foldAdds_ok adds [] (fun e he => absurd he (List.not_mem_nil e))
      (by simp [keysNodup])
  refine ⟨c, h1, ?_⟩
  rw [h4]
  simp [cartLen]

theorem length_after_add_sequence_witness :
    ∃ cart, foldAdds [] [(prodPen, 2), (prodMug, 3), (prodPen, 1)] = some cart
      ∧ cartLen cart
          = (([(prodPen, 2), (prodMug, 3), (prodPen, 1)] : List (Product × Int)).map
              (fun a => a.2)).sum :=
  length_after_add_sequence _ (by decide)

/-- C5: a stored line whose price does not parse contributes nothing to
`get_total_price` (the fold skips it) and still appears in the items of
`__iter__`, at its stored position, with price and line total 0.00;
neither operation raises (both translations are total). -/
theorem malformed_price_degrades (catalog : List Product) (pre post : CartMap)
    (k : String) (l : Line)
    (hnd : keysNodup (pre ++ (k, l) :: post))
    (hbad : l.price.bind parseDecimal = none) :
    get_total_price (pre ++ (k, l) :: post) = get_total_price (pre ++ post)
    ∧ ∃ it, (cartIter catalog (pre ++ (k, l) :: post)).1.get? pre.length = some it
        ∧ it.price = 0 ∧ it.total_price = 0
        ∧ it.quantity = l.quantity.getD 0 := by
  constructor
  · rw [get_total_price_eq, get_total_price_eq]
    simp only [List.map_append, List.map_cons, List.sum_append, List.sum_cons]
    have hz : lineContrib (k, l) = 0 := by simp [lineContrib, hbad]
    rw [hz]
    ring
  · rw [cartIter_fst hnd]
    rw [List.get?_map]
    have hg : (pre ++ (k, l) :: post).get? pre.length = some (k, l) := by
      rw [List.get?_append_right (le_refl _)]
      simp
    rw [hg]
    refine ⟨_, rfl, ?_, ?_, ?_⟩
    · simp [enrichLine, attachEntry_price, hbad]
    · simp [enrichLine, attachEntry_price, hbad]
    · simp [enrichLine, attachEntry_quantity]

theorem malformed_price_degrades_witness :
    get_total_price [("1", lineBook), ("2", lineBad)] = get_total_price [("1", lineBook)]
    ∧ ∃ it, (cartIter [prodBook] [("1", lineBook), ("2", lineBad)]).1.get? 1 = some it
        ∧ it.price = 0 ∧ it.total_price = 0
        ∧ it.quantity = lineBad.quantity.getD 0 :=
  malformed_price_degrades [prodBook] [("1", lineBook)] [] "2" lineBad
    (by decide) (by decide)

/-- C10: over any stored mapping whose lines each hold an integer
quantity and a string price, `get_total_price` equals the sum of the
`total_price` fields of the items yielded by `__iter__`, for any
catalog. -/
theorem total_price_matches_iter_sum (catalog : List Product) (cart : CartMap)
    (hnd : keysNodup cart)
    (hwf : ∀ e ∈ cart, e.2.quantity.isSome ∧ e.2.price.isSome) :
    get_total_price cart = ((cartIter catalog cart).1.map Item.total_price).sum := by
  rw [cartIter_fst hnd, List.map_map, get_total_price_eq]
  have hfun : (Item.total_price ∘ fun e =>
      enrichLine (attachEntry (productsOf catalog cart) e).2) = lineContrib := by
    funext e
    simp only [Function.comp_apply, enrichLine, lineContrib,
      attachEntry_price, attachEntry_quantity]
    rcases hb : e.2.price.bind parseDecimal with _ | pr
    · simp [hb]
    · simp [hb]
  rw [hfun]

theorem total_price_matches_iter_sum_witness :
    get_total_price cartOneBook
      = ((cartIter [prodBook] cartOneBook).1.map Item.total_price).sum :=
  total_price_matches_iter_sum [prodBook] cartOneBook (by decide) (by decide)

theorem productsOf_nil (catalog : List Product) : productsOf catalog [] = [] := by
  simp [productsOf]

theorem cartIter_nil (catalog : List Product) : cartIter catalog [] = ([], []) := by
  simp [cartIter, productsOf_nil]

/-- C6 counterexample: on the very `Cart` instance on which `clear()`
was called, `__len__` does not return 0 — `clear` removes the session
key but leaves `self.cart` untouched, so the instance still reports the
old sum (here 2). -/
theorem clear_then_length_not_zero :
    Cart.length (Cart.clear cartObjBook) = 2
    ∧ ¬ (Cart.length (Cart.clear cartObjBook) = 0) := by
  decide

/-- C6 (amended): `clear()` deletes the stored cart key from the
session when present, marks the session modified, and is a no-op when
the key is absent; it leaves the instance's own mapping unchanged (so
`length()` on the same instance still reports the prior sum), while a
`Cart` constructed afresh from the cleared session has length 0 and an
iteration that yields no items. -/
theorem clear_semantics (c : Cart) (catalog : List Product) :
    (Cart.clear c).session.cartData = none
    ∧ (Cart.clear c).session.modified = (c.session.modified || c.session.cartData.isSome)
    ∧ (c.session.cartData = none → Cart.clear c = c)
    ∧ (Cart.clear c).cart = c.cart
    ∧ Cart.length (Cart.init (Cart.clear c).session) = 0
    ∧ (cartIter catalog (Cart.init (Cart.clear c).session).cart).1 = [] := by
  rcases hc : c.session.cartData with _ | m
  · have hclear : Cart.clear c = c := by
      simp only [Cart.clear, hc]
      simp
    rw [hclear, hc]
    refine ⟨rfl, by simp, fun _ => rfl, rfl, ?_, ?_⟩
    · simp [Cart.init, hc, Cart.length, cartLen]
    · simp [Cart.init, hc, cartIter_nil]
  · have hpres : c.session.cartData.isSome := by simp [hc]
    have hclear : Cart.clear c
        = { c with session := { cartData := none, modified := true } } := by
      simp only [Cart.clear, if_pos hpres]
    rw [hclear]
    refine ⟨rfl, by simp, ?_, rfl, ?_, ?_⟩
    · intro hnone
      simp at hnone
    · simp [Cart.init, Cart.length, cartLen]
    · simp [Cart.init, cartIter_nil]

theorem clear_semantics_witness :
    (Cart.clear cartObjBook).session.cartData = none
    ∧ (Cart.clear cartObjBook).session.modified
        = (cartObjBook.session.modified || cartObjBook.session.cartData.isSome)
    ∧ (cartObjBook.session.cartData = none → Cart.clear cartObjBook = cartObjBook)
    ∧ (Cart.clear cartObjBook).cart = cartObjBook.cart
    ∧ Cart.length (Cart.init (Cart.clear cartObjBook).session) = 0
    ∧ (cartIter [prodBook] (Cart.init (Cart.clear cartObjBook).session).cart).1 = [] :=
  clear_semantics cartObjBook [prodBook]

/-- C7: after `remove(p)` the stored mapping has no line keyed by `p`'s
id, a following `__iter__` yields no item carrying `p`, and when the
line was absent `remove` leaves the mapping unchanged (and raises
nothing: the translation is total). -/
theorem remove_then_iter_no_line (cart : CartMap) (p : Product)
    (catalog : List Product) (hnd : keysNodup cart) (hpn : prodNone cart) :
    lookupLine (cartRemove cart p) (toString p.id) = none
    ∧ (∀ it ∈ (cartIter catalog (cartRemove cart p)).1, it.product ≠ some p)
    ∧ (lookupLine cart (toString p.id) = none → cartRemove cart p = cart) := by
  have habsent : lookupLine (cartRemove cart p) (toString p.id) = none := by
    rcases hl : lookupLine cart (toString p.id) with _ | l
    · rw [cartRemove_absent hl]
      exact hl
    · rw [cartRemove_present (by simp [hl])]
      exact lookup_eraseLine_self cart (toString p.id)
  have hnd2 : keysNodup (cartRemove cart p) := by
    rcases hl : lookupLine cart (toString p.id) with _ | l
    · rw [cartRemove_absent hl]
      exact hnd
    · rw [cartRemove_present (by simp [hl])]
      exact eraseLine_keysNodup _ hnd
  have hpn2 : prodNone (cartRemove cart p) := by
    rcases hl : lookupLine cart (toString p.id) with _ | l
    · rw [cartRemove_absent hl]
      exact hpn
    · rw [cartRemove_present (by simp [hl])]
      exact fun e he => hpn e (mem_eraseLine he)
  refine ⟨habsent, ?_, fun hl => cartRemove_absent hl⟩
  intro it hit hps
  rw [cartIter_fst hnd2] at hit
  obtain ⟨e, he, heq⟩ := List.mem_map.mp hit
  rw [← heq] at hps
  have hprod : (enrichLine (attachEntry (productsOf catalog (cartRemove cart p)) e).2).product
      = (attachEntry (productsOf catalog (cartRemove cart p)) e).2.product := by
    simp [enrichLine]
  rw [hprod, attachEntry_product] at hps
  rcases hlm : lastMatch (productsOf catalog (cartRemove cart p)) e.1 with _ | q
  · rw [hlm] at hps
    simp only [] at hps
    rw [hpn2 e he] at hps
    cases hps
  · rw [hlm] at hps
    simp only [] at hps
    cases hps
    obtain ⟨hqmem, hqkey⟩ := lastMatch_spec hlm
    have hmem : e.1 ∈ (cartRemove cart p).map Prod.fst :=
      List.mem_map_of_mem Prod.fst he
    rw [← hqkey] at hmem
    exact (lookupLine_eq_none.mp habsent) hmem

theorem remove_then_iter_no_line_witness :
    lookupLine (cartRemove cartOneBook prodBook) (toString prodBook.id) = none
    ∧ (∀ it ∈ (cartIter [prodBook] (cartRemove cartOneBook prodBook)).1,
        it.product ≠ some prodBook)
    ∧ (lookupLine cartOneBook (toString prodBook.id) = none
        → cartRemove cartOneBook prodBook = cartOneBook) :=
  remove_then_iter_no_line cartOneBook prodBook [prodBook] (by decide) (by decide)

/-- When a line is stored under `p`'s id and `p` is an available row of
a catalog without duplicate id strings, the items of `__iter__` carry
`p` exactly once, namely on that line. -/
theorem iter_unique_line (catalog : List Product) (c2 : CartMap) (p : Product)
    (l' : Line) (hnd2 : keysNodup c2) (hpn2 : prodNone c2)
    (hcat : (catalog.map (fun p => toString p.id)).Nodup)
    (hp : p ∈ catalog) (hav : p.available = true)
    (hlk : lookupLine c2 (toString p.id) = some l') :
    ((cartIter catalog c2).1.countP (fun it => it.product == some p)) = 1
    ∧ ∀ it ∈ (cartIter catalog c2).1, it.product = some p
        → it.quantity = l'.quantity.getD 0 := by
  have hkey : toString p.id ∈ c2.map Prod.fst := by
    by_contra hcon
    rw [← lookupLine_eq_none] at hcon
    rw [hcon] at hlk
    cases hlk
  have hpmem : p ∈ productsOf catalog c2 := by
    refine List.mem_filter.mpr ⟨hp, ?_⟩
    rw [hav]
    simp only [Bool.true_and]
    exact List.elem_iff.mpr hkey
  have hpsnd : ((productsOf catalog c2).map (fun p => toString p.id)).Nodup :=
    List.Nodup.sublist (List.Sublist.map _ (List.filter_sublist _)) hcat
  have hlast : ∀ e ∈ c2,
      ((attachEntry (productsOf catalog c2) e).2.product = some p
        ↔ e.1 = toString p.id) := by
    intro e he
    rw [attachEntry_product]
    constructor
    · intro hsome
      rcases hlm : lastMatch (productsOf catalog c2) e.1 with _ | p2
      · rw [hlm] at hsome
        simp only [] at hsome
        rw [hpn2 e he] at hsome
        cases hsome
      · rw [hlm] at hsome
        simp only [Option.some.injEq] at hsome
        obtain ⟨hmem2, hkey2⟩ := lastMatch_spec hlm
        rw [hsome] at hkey2
        exact hkey2.symm
    · intro hkey2
      rw [hkey2, lastMatch_unique hpsnd hpmem rfl]
  constructor
  · rw [cartIter_fst hnd2, List.countP_map]
    have hstep : List.countP ((fun it => it.product == some p) ∘ fun e =>
        enrichLine (attachEntry (productsOf catalog c2) e).2) c2
        = List.countP (fun e => e.1 == toString p.id) c2 := by
      refine List.countP_congr fun e he => ?_
      have hprod : (enrichLine (attachEntry (productsOf catalog c2) e).2).product
          = (attachEntry (productsOf catalog c2) e).2.product := by
        simp [enrichLine]
      simp only [Function.comp_apply, hprod, beq_iff_eq]
      exact hlast e he
    rw [hstep]
    have hcnt : List.countP (fun e => e.1 == toString p.id) c2
        = List.count (toString p.id) (c2.map Prod.fst) := by
      rw [List.count, List.countP_map]
      rfl
    rw [hcnt]
    exact List.count_eq_one_of_mem hnd2 hkey
  · intro it hit hps
    rw [cartIter_fst hnd2] at hit
    obtain ⟨e, he, heq⟩ := List.mem_map.mp hit
    have hprod : it.product = (attachEntry (productsOf catalog c2) e).2.product := by
      rw [← heq]
      simp [enrichLine]
    rw [hprod] at hps
    have hkey2 : e.1 = toString p.id := (hlast e he).mp hps
    have hlkup : lookupLine c2 e.1 = some e.2 :=
      mem_lookupLine hnd2 (by simpa using he)
    rw [hkey2, hlk] at hlkup
    injection hlkup with hl2
    rw [← heq]
    simp [enrichLine, attachEntry_quantity, hl2]

/-- C3: whatever the prior stored state, `add(p, q, override_quantity
= true)` followed by `__iter__` (over a duplicate-free catalog in which
`p` is available) yields exactly one item carrying `p`, and that item's
quantity is `q`. -/
theorem override_add_then_iter_unique (cart : CartMap) (catalog : List Product)
    (p : Product) (q : Int)
    (hnd : keysNodup cart) (hpn : prodNone cart)
    (hcat : (catalog.map (fun p => toString p.id)).Nodup)
    (hp : p ∈ catalog) (hav : p.available = true) :
    ∃ cart', cartAdd cart p q true = some cart'
      ∧ ((cartIter catalog cart').1.countP (fun it => it.product == some p)) = 1
      ∧ (∀ it ∈ (cartIter catalog cart').1, it.product = some p
          → it.quantity = q) := by
  rcases hl : lookupLine cart (toString p.id) with _ | l
  · refine ⟨_, cartAdd_eq_absent_true q hl, ?_⟩
    have hlk : lookupLine (cart ++ [(toString p.id,
        { quantity := some q, price := some p.price, product := none })])
        (toString p.id)
        = some { quantity := some q, price := some p.price, product := none } :=
      lookup_append_single_self _ hl
    have hnd2 : keysNodup (cart ++ [(toString p.id,
        { quantity := some q, price := some p.price, product := none })]) := by
      rw [keysNodup, List.map_append, List.nodup_append]
      refine ⟨hnd, by simp, ?_⟩
      intro a ha hb
      simp at hb
      rw [hb] at ha
      exact (lookupLine_eq_none.mp hl) ha
    have hpn2 : prodNone (cart ++ [(toString p.id,
        { quantity := some q, price := some p.price, product := none })]) := by
      intro e he
      rcases List.mem_append.mp he with h1 | h1
      · exact hpn e h1
      · simp at h1
        rw [h1]
    obtain ⟨hcount, hqty⟩ :=
      iter_unique_line catalog _ p _ hnd2 hpn2 hcat hp hav hlk
    refine ⟨hcount, fun it hit hps => ?_⟩
    rw [hqty it hit hps]
    rfl
  · refine ⟨_, cartAdd_eq_present_true q hl, ?_⟩
    have hlk : lookupLine (replaceLine cart (toString p.id)
        { l with quantity := some q }) (toString p.id)
        = some { l with quantity := some q } :=
      lookup_replaceLine_self _ hl
    have hnd2 : keysNodup (replaceLine cart (toString p.id)
        { l with quantity := some q }) := by
      rw [keysNodup, replaceLine_map_fst]
      exact hnd
    have hpn2 : prodNone (replaceLine cart (toString p.id)
        { l with quantity := some q }) := by
      intro e he
      rcases mem_replaceLine he with h1 | h1
      · exact hpn e h1
      · rw [h1]
        show l.product = none
        exact hpn _ (lookupLine_mem hl)
    obtain ⟨hcount, hqty⟩ :=
      iter_unique_line catalog _ p _ hnd2 hpn2 hcat hp hav hlk
    refine ⟨hcount, fun it hit hps => ?_⟩
    rw [hqty it hit hps]
    simp

theorem override_add_then_iter_unique_witness :
    ∃ cart', cartAdd cartOneBook prodBook 3 true = some cart'
      ∧ ((cartIter [prodBook] cart').1.countP
          (fun it => it.product == some prodBook)) = 1
      ∧ (∀ it ∈ (cartIter [prodBook] cart').1, it.product = some prodBook
          → it.quantity = 3) :=
  override_add_then_iter_unique cartOneBook [prodBook] prodBook 3
    (by decide) (by decide) (by decide) (by decide) (by decide)
